import Mathlib

/-!
Shallow embedding of the gpsserver repository: the byte codec, checksum
engine, frame reassembler, protocol decoder and acknowledgement builder,
translated from `gps_decoder.js` and the TCP server source.  Bytes are
modelled as natural numbers below 256.  A JavaScript out-of-range array read
yields `undefined`, which `ToInt32` coerces to 0 in bitwise contexts; this is
modelled with `List.getD _ _ 0`.
-/

namespace GpsServer

/-- JS array read `bytes[i]` in a bitwise or arithmetic context: an
out-of-range read yields `undefined`, which coerces to 0 under `ToInt32`. -/
def jsByte (bytes : List Nat) (i : Nat) : Nat := bytes.getD i 0

/-- `readUInt16BE` from gps_decoder.js: `(bytes[offset] << 8) | bytes[offset+1]`. -/
def readUInt16BE (bytes : List Nat) (off : Nat) : Nat :=
  (jsByte bytes off) <<< 8 ||| jsByte bytes (off + 1)

/-- Two's-complement reinterpretation of a 32-bit unsigned value, as produced
by JavaScript's `ToInt32` on the result of `|`. -/
def toSigned32 (u : Nat) : Int := if u < 2 ^ 31 then (u : Int) else (u : Int) - 2 ^ 32

/-- `readUInt32BE` from gps_decoder.js:
`(bytes[off] << 24) | (bytes[off+1] << 16) | (bytes[off+2] << 8) | bytes[off+3]`.
JavaScript `|` returns a signed 32-bit integer, so for byte values the result
is the two's-complement reading of the four bytes. -/
def readUInt32BE (bytes : List Nat) (off : Nat) : Int :=
  toSigned32 ((jsByte bytes off <<< 24 ||| jsByte bytes (off + 1) <<< 16 |||
    jsByte bytes (off + 2) <<< 8 ||| jsByte bytes (off + 3)) % 2 ^ 32)

/-- `bytesToString` from gps_decoder.js: for each byte, append the decimal
digits of the low nibble, then of the high nibble (the code's
"Swap nibbles for IMEI format"). -/
def bytesToString (bytes : List Nat) : String :=
  bytes.foldl (fun result b =>
    result ++ toString (b &&& 0x0F) ++ toString ((b >>> 4) &&& 0x0F)) ""

/-- One shift round of the CRC-16/X-25 loop in the TCP server:
`crc = (crc & 1) ? (crc >> 1) ^ 0x8408 : crc >> 1`. -/
def crcRound (crc : Nat) : Nat :=
  if crc &&& 1 = 1 then (crc >>> 1) ^^^ 0x8408 else crc >>> 1

/-- `crc16X25` from the TCP server: register starts at 0xffff, each input byte
is XORed in and followed by eight shift rounds; finally `(~crc) & 0xffff`
(32-bit not, then mask), emitted high byte first.  JavaScript's `~crc` on a
register below 2^32 has the unsigned bit pattern `2^32 - 1 - crc`. -/
def crc16X25 (buffer : List Nat) : List Nat :=
  let reg := buffer.foldl (fun crc b => crcRound^[8] (crc ^^^ b)) 0xffff
  let crc := (2 ^ 32 - 1 - reg) &&& 0xffff
  [(crc >>> 8) &&& 0xff, crc &&& 0xff]

/-- One per-bit step of CRC-16/X-25 as the spec words it: XOR the polynomial
0x8408 into the shifted register when the shifted-out bit is 1, else plain
shift. -/
def crcSpecRound (reg : Nat) : Nat :=
  if reg % 2 = 1 then (reg / 2) ^^^ 0x8408 else reg / 2

/-- CRC-16/X-25 as described by the spec: initial register 0xFFFF, eight
per-bit steps per input byte, final one's-complement of the 16-bit register,
result emitted as two bytes with the high byte first. -/
def crc16X25Spec (bytes : List Nat) : List Nat :=
  let reg := bytes.foldl (fun reg b => crcSpecRound^[8] (reg ^^^ b)) 0xffff
  let c := 0xffff - reg
  [c / 256, c % 256]

/-- The login acknowledgement built by the TCP server for an inbound frame
`data` with `data[3] = 0x01`: serial = `data.slice(12, 14)`, ack body =
`[0x05, 0x01] ++ serial`, framed as `7878 ++ body ++ crc16X25 body ++ 0d0a`. -/
def loginAck (data : List Nat) : List Nat :=
  let serial := (data.drop 12).take 2
  let ackBody := [0x05, 0x01] ++ serial
  [0x78, 0x78] ++ ackBody ++ crc16X25 ackBody ++ [0x0d, 0x0a]

/-- The value and hemisphere letter produced by `formatCoordinate`; `decimal`
models the `toFixed(6)` string as the value rounded to six decimal places. -/
structure Coordinate where
  decimal : ℚ
  direction : Char
  raw : Int
  deriving DecidableEq, Repr

/-- The six raw timestamp components read by `readDateTime` (the JS code
feeds them to `new Date(...)` and stores the ISO string; the claims only
concern the extracted byte fields). -/
structure DateTimeRaw where
  year : Nat
  month : Nat
  day : Nat
  hour : Nat
  minute : Nat
  second : Nat
  deriving DecidableEq, Repr

/-- The `result.location` object of a decoded location report (numeric
values; the JS code attaches unit suffix strings to some of them). -/
structure LocationData where
  latitude : Coordinate
  longitude : Coordinate
  altitude : Nat
  speed : ℚ
  course : Nat
  dateTime : DateTimeRaw
  gpsStatus : String
  satellites : Nat
  deriving DecidableEq, Repr

/-- Result of `GPSDecoder.decode`, as a tagged variant over the ad-hoc JS
result objects.  Constructors whose JS object carries an `error` property:
`invalidStart`, `caughtError`, `unknownType`, `locationDateError`. -/
inductive DecodeResult where
  | invalidStart
  | caughtError
  | unknownType (typeByte : Nat)
  | gpsNotReady (imei : String) (seq : Option Nat) (messageLength : Nat)
  | location (imei : String) (seq : Option Nat) (loc : LocationData)
  | locationDateError (imei : String) (seq : Option Nat)
  | heartbeat (imei : String) (frameLength : Nat)
  deriving DecidableEq, Repr

/-- Whether the JS result object carries an `error` property. -/
def DecodeResult.hasError : DecodeResult → Bool
  | .invalidStart | .caughtError | .unknownType _ | .locationDateError _ _ => true
  | _ => false

/-- Whether the JS result object carries a `location` payload. -/
def DecodeResult.hasLocation : DecodeResult → Bool
  | .location _ _ _ => true
  | _ => false

/-- The `imei` property of the result object, when present. -/
def DecodeResult.imeiOf : DecodeResult → Option String
  | .gpsNotReady i _ _ => some i
  | .location i _ _ => some i
  | .locationDateError i _ => some i
  | .heartbeat i _ => some i
  | _ => none

/-- `Number.prototype.toFixed(6)` modelled as rounding (half up) to six
decimal places. -/
def roundTo6 (q : ℚ) : ℚ := (⌊q * 1000000 + 1 / 2⌋ : ℤ) / 1000000

/-- `formatCoordinate` from gps_decoder.js: decimal degrees = value / 1800000,
negated unless `isPositive`; hemisphere letter from `isPositive` and the
coordinate kind. -/
def formatCoordinate (value : Int) (isPositive : Bool) (isLat : Bool) : Coordinate :=
  let degrees : ℚ := (value : ℚ) / 1800000
  let finalDegrees := if isPositive then degrees else -degrees
  { decimal := roundTo6 finalDegrees
    direction := if isLat then (if isPositive then 'N' else 'S')
                 else (if isPositive then 'E' else 'W')
    raw := value }

/-- `decodeLocationReport` from gps_decoder.js.  For frames of 28 to 33 bytes
the `readDateTime` call reads `undefined` bytes, builds an invalid `Date`,
and its `toISOString()` throws; the inner `catch` stores the error and the
returned record carries no location (`locationDateError`). -/
def decodeLocationReport (bytes : List Nat) : DecodeResult :=
  let imei := bytesToString ((bytes.drop 4).take 8)
  let seq := if 14 ≤ bytes.length then some (readUInt16BE bytes 12) else none
  if bytes.length < 28 then
    .gpsNotReady imei seq bytes.length
  else if bytes.length < 34 then
    .locationDateError imei seq
  else
    let status := jsByte bytes 34
    let isNorth := status &&& 0x01 = 0
    let isEast := status &&& 0x02 = 0
    .location imei seq
      { latitude := formatCoordinate (readUInt32BE bytes 14) isNorth true
        longitude := formatCoordinate (readUInt32BE bytes 18) isEast false
        altitude := readUInt16BE bytes 22
        speed := (readUInt16BE bytes 24 : ℚ) / 10
        course := readUInt16BE bytes 26
        dateTime := { year := 2000 + jsByte bytes 28, month := jsByte bytes 29
                      day := jsByte bytes 30, hour := jsByte bytes 31
                      minute := jsByte bytes 32, second := jsByte bytes 33 }
        gpsStatus := if status &&& 0x04 = 0 then "FIXED" else "UNFIXED"
        satellites := (status >>> 4) &&& 0x0F }

/-- `decodeHeartbeat` from gps_decoder.js. -/
def decodeHeartbeat (bytes : List Nat) : DecodeResult :=
  .heartbeat (bytesToString ((bytes.drop 4).take 8)) bytes.length

/-- `GPSDecoder.decode`, after the hex-to-byte conversion.  A frame shorter
than 4 bytes makes `messageType.toString(16)` throw on `undefined`, which the
outer `catch` turns into a bare error object (`caughtError`). -/
def decode (bytes : List Nat) : DecodeResult :=
  if jsByte bytes 0 = 0x78 ∧ jsByte bytes 1 = 0x78 then
    if bytes.length < 4 then .caughtError
    else if jsByte bytes 3 = 0x01 then decodeLocationReport bytes
    else if jsByte bytes 3 = 0x04 then decodeHeartbeat bytes
    else .unknownType (jsByte bytes 3)
  else .invalidStart

/-- The record returned by `verifyChecksum`. -/
structure ChecksumReport where
  received : Option Nat
  calculated : Nat
  valid : Bool
  deriving DecidableEq, Repr

/-- `verifyChecksum` from gps_decoder.js: `received` is `bytes[len - 2]`
(`undefined`, i.e. `none`, when the frame has fewer than two bytes),
`calculated` XORs `bytes[3] .. bytes[len - 4]`, and `valid` is the strict
equality `received === calculated`, false when `received` is `undefined`. -/
def verifyChecksum (bytes : List Nat) : ChecksumReport :=
  let received : Option Nat :=
    if bytes.length < 2 then none else some (jsByte bytes (bytes.length - 2))
  let calculated := ((bytes.take (bytes.length - 3)).drop 3).foldl (· ^^^ ·) 0
  { received := received
    calculated := calculated
    valid := received == some calculated }

/-- `data.toString('hex')`: each byte becomes two hex digits, modelled as
their numeric values 0 to 15. -/
def hexOfBytes : List Nat → List Nat
  | [] => []
  | b :: bs => b / 16 :: b % 16 :: hexOfBytes bs

/-- `String.prototype.indexOf(pat)` on digit lists: index of the first
occurrence of `pat` as a contiguous sublist, if any. -/
def findPat (pat : List Nat) : List Nat → Option Nat
  | [] => if pat.isPrefixOf ([] : List Nat) then some 0 else none
  | a :: rest =>
    if pat.isPrefixOf (a :: rest) then some 0
    else (findPat pat rest).map (· + 1)

/-- The `socket.on('data')` frame-extraction `while` loop from the TCP
server, on the hex-digit buffer.  Faithful to the JS loop, including the
stale `startIndex` that is still used as the `fromIndex` of the end-marker
search after the buffer has already been shifted by `substring(startIndex)`.
The fuel argument only bounds the recursion; `processBuffer` supplies enough
fuel for the loop to run to completion. -/
def processBufferFuel : Nat → List Nat → List (List Nat) × List Nat
  | 0, buffer => ([], buffer)
  | fuel + 1, buffer =>
    if buffer.length < 4 then ([], buffer)
    else
      match findPat [7, 8, 7, 8] buffer with
      | none => ([], [])
      | some s =>
        let buffer1 := buffer.drop s
        match findPat [0, 13, 0, 10] (buffer1.drop (s + 4)) with
        | none => ([], buffer1)
        | some e0 =>
          let fl := e0 + s + 4 + 4
          let r := processBufferFuel fuel (buffer1.drop fl)
          (buffer1.take fl :: r.1, r.2)

/-- Run the frame-extraction loop to completion on a buffer (each loop
iteration consumes at least eight digits, so `buffer.length` is enough
fuel). -/
def processBuffer (buffer : List Nat) : List (List Nat) × List Nat :=
  processBufferFuel buffer.length buffer

/-- One `socket.on('data')` event: append the chunk's hex digits to the
connection buffer and run the extraction loop, returning the emitted frames
and the remaining buffer. -/
def feed (st : List Nat) (chunk : List Nat) : List (List Nat) × List Nat :=
  processBuffer (st ++ hexOfBytes chunk)

def feedStep (acc : List (List Nat) × List Nat) (c : List Nat) :
    List (List Nat) × List Nat :=
  let r := feed acc.2 c
  (acc.1 ++ r.1, r.2)

/-- Feed a sequence of chunks to a fresh connection buffer, collecting all
emitted frames in order. -/
def feedAll (chunks : List (List Nat)) : List (List Nat) × List Nat :=
  chunks.foldl feedStep ([], [])

/-- A valid protocol frame per the spec's wire format: 2-byte start marker
`0x78 0x78`, length byte equal to the total length minus 5, byte values below
256, and the 2-byte end marker `0x0d 0x0a`. -/
def validFrame (f : List Nat) : Prop :=
  8 ≤ f.length ∧ (∀ b ∈ f, b < 256) ∧ f.take 2 = [0x78, 0x78] ∧
    f.getD 2 0 = f.length - 5 ∧ f.drop (f.length - 2) = [0x0d, 0x0a]

instance validFrame.instDecidable (f : List Nat) : Decidable (validFrame f) := by
  unfold validFrame; infer_instance

/-- The hex encoding of `f` contains the end-marker digit pattern `0d0a` only
at its final position. -/
def onlyFinalEndMarker (f : List Nat) : Prop :=
  ∀ i < 2 * f.length, [0, 13, 0, 10].isPrefixOf ((hexOfBytes f).drop i) = true →
    i = 2 * f.length - 4

instance onlyFinalEndMarker.instDecidable (f : List Nat) :
    Decidable (onlyFinalEndMarker f) := by
  unfold onlyFinalEndMarker; infer_instance

/-- The `location.latitude` object of a decoded result, when present. -/
def DecodeResult.latitudeOf : DecodeResult → Option Coordinate
  | .location _ _ loc => some loc.latitude
  | _ => none

/-- The `location.longitude` object of a decoded result, when present. -/
def DecodeResult.longitudeOf : DecodeResult → Option Coordinate
  | .location _ _ loc => some loc.longitude
  | _ => none

/-- The 18-byte status/login frame captured from device traffic in the
repository's troubleshooting guide:
`78780d0103577189512272510008f1090d0a`. -/
def capturedFrame : List Nat :=
  [0x78, 0x78, 0x0d, 0x01, 0x03, 0x57, 0x71, 0x89, 0x51, 0x22, 0x72, 0x51,
   0x00, 0x08, 0xf1, 0x09, 0x0d, 0x0a]

/-- A 38-byte location-report frame with raw latitude 6306316 at offsets
14..17 and status byte 0x00 (hemisphere bits clear) at offset 34. -/
def frame38N : List Nat :=
  [0x78, 0x78, 0x21, 0x01, 0x03, 0x57, 0x71, 0x89, 0x51, 0x22, 0x72, 0x51,
   0x00, 0x08, 0x00, 0x60, 0x3A, 0x0C, 0x07, 0x63, 0xDA, 0x40, 0x01, 0xF4,
   0x00, 0x12, 0x00, 0xB4, 0x1A, 0x01, 0x0A, 0x0B, 0x0C, 0x22, 0x00, 0x7C,
   0x0D, 0x0A]

/-- The same frame as `frame38N` with status byte 0x01 (latitude hemisphere
bit set) at offset 34. -/
def frame38S : List Nat :=
  [0x78, 0x78, 0x21, 0x01, 0x03, 0x57, 0x71, 0x89, 0x51, 0x22, 0x72, 0x51,
   0x00, 0x08, 0x00, 0x60, 0x3A, 0x0C, 0x07, 0x63, 0xDA, 0x40, 0x01, 0xF4,
   0x00, 0x12, 0x00, 0xB4, 0x1A, 0x01, 0x0A, 0x0B, 0x0C, 0x22, 0x01, 0x7C,
   0x0D, 0x0A]

/-! ## Helper lemmas about bytes and bit operations -/

theorem jsByte_lt {bytes : List Nat} (hb : ∀ b ∈ bytes, b < 256) (i : Nat) :
    jsByte bytes i < 256 := by
  unfold jsByte
  rw [List.getD_eq_getElem?_getD]
  cases h : bytes[i]? with
  | none => simp
  | some b => simpa using hb b (List.getElem?_mem h)

theorem readUInt16BE_eq (bytes : List Nat) (off : Nat)
    (hb : ∀ b ∈ bytes, b < 256) :
    readUInt16BE bytes off = 256 * jsByte bytes off + jsByte bytes (off + 1) := by
  have h1 := jsByte_lt hb (off + 1)
  unfold readUInt16BE
  rw [Nat.shiftLeft_eq, Nat.mul_comm]
  exact (Nat.mul_add_lt_is_or (show jsByte bytes (off + 1) < 2 ^ 8 by simpa using h1)
    (jsByte bytes off)).symm

theorem readUInt32BE_eq (bytes : List Nat) (off : Nat)
    (hb : ∀ b ∈ bytes, b < 256) :
    readUInt32BE bytes off =
      toSigned32 (2 ^ 24 * jsByte bytes off + 2 ^ 16 * jsByte bytes (off + 1) +
        2 ^ 8 * jsByte bytes (off + 2) + jsByte bytes (off + 3)) := by
  have h0 := jsByte_lt hb off
  have h1 := jsByte_lt hb (off + 1)
  have h2 := jsByte_lt hb (off + 2)
  have h3 := jsByte_lt hb (off + 3)
  set b0 := jsByte bytes off with hb0
  set b1 := jsByte bytes (off + 1) with hb1
  set b2 := jsByte bytes (off + 2) with hb2
  set b3 := jsByte bytes (off + 3) with hb3
  unfold readUInt32BE
  rw [← hb0, ← hb1, ← hb2, ← hb3]
  rw [Nat.shiftLeft_eq, Nat.shiftLeft_eq, Nat.shiftLeft_eq]
  have e1 : b0 * 2 ^ 24 ||| b1 * 2 ^ 16 = 2 ^ 16 * (2 ^ 8 * b0 + b1) := by
    rw [Nat.mul_comm b0]
    rw [(Nat.mul_add_lt_is_or (show b1 * 2 ^ 16 < 2 ^ 24 by nlinarith) b0).symm]
    ring
  rw [e1]
  have e2 : 2 ^ 16 * (2 ^ 8 * b0 + b1) ||| b2 * 2 ^ 8 =
      2 ^ 8 * (2 ^ 16 * b0 + 2 ^ 8 * b1 + b2) := by
    rw [(Nat.mul_add_lt_is_or (show b2 * 2 ^ 8 < 2 ^ 16 by nlinarith) _).symm]
    ring
  rw [e2]
  have e3 : 2 ^ 8 * (2 ^ 16 * b0 + 2 ^ 8 * b1 + b2) ||| b3 =
      2 ^ 24 * b0 + 2 ^ 16 * b1 + 2 ^ 8 * b2 + b3 := by
    rw [(Nat.mul_add_lt_is_or (show b3 < 2 ^ 8 by simpa using h3) _).symm]
    ring
  rw [e3]
  rw [Nat.mod_eq_of_lt (show 2 ^ 24 * b0 + 2 ^ 16 * b1 + 2 ^ 8 * b2 + b3 < 2 ^ 32 by
    norm_num
    omega)]

/-! ## Claim theorems: byte codec -/

/-- Claim C1: on the captured IMEI bytes `[0x03,0x57,0x71,0x89,0x51,0x22,
0x72,0x51]` the identifier decoder `bytesToString` (low-nibble digit first,
then high-nibble digit) yields the string "3075179815222715", not the
documented identifier "357718951227251": the code contradicts the
repository's own troubleshooting guide, which shows this exact captured
traffic decoding to `"imei": "357718951227251"`. -/
theorem c1_identifier_decoder_bug :
    bytesToString [0x03, 0x57, 0x71, 0x89, 0x51, 0x22, 0x72, 0x51] =
      "3075179815222715" ∧
    bytesToString [0x03, 0x57, 0x71, 0x89, 0x51, 0x22, 0x72, 0x51] ≠
      "357718951227251" := by
  constructor <;> decide

/-- Claim C9 counterexample: the big-endian readers do not fail with an
`OutOfRangeError` on out-of-range offsets — `readUInt16BE` on the
single-byte array `[0x12]` at offset 0 returns 0x1200 — and `readUInt32BE`
does not return the unsigned big-endian integer: on `[0xFF,0,0,0]` it
returns the signed value -16777216 instead of 4278190080. -/
theorem c9_out_of_range_counterexample :
    readUInt16BE [0x12] 0 = 0x1200 ∧
    readUInt32BE [0xFF, 0x00, 0x00, 0x00] 0 = -16777216 ∧
    (-16777216 : Int) ≠ 4278190080 := by
  refine ⟨by decide, by decide, by decide⟩

/-- Claim C9 (amended): `readUInt16BE` returns the unsigned big-endian
16-bit value of the two bytes it reads, and `readUInt32BE` returns the
two's-complement signed 32-bit reinterpretation of the 4-byte big-endian
value; when `offset + width` exceeds the array length no error is raised —
the missing bytes are `undefined` and contribute 0 (`List.getD _ _ 0`), as
the unconditional formulas show. -/
theorem c9_big_endian_reads (bytes : List Nat) (off : Nat)
    (hb : ∀ b ∈ bytes, b < 256) :
    readUInt16BE bytes off = 256 * bytes.getD off 0 + bytes.getD (off + 1) 0 ∧
    readUInt32BE bytes off =
      toSigned32 (2 ^ 24 * bytes.getD off 0 + 2 ^ 16 * bytes.getD (off + 1) 0 +
        2 ^ 8 * bytes.getD (off + 2) 0 + bytes.getD (off + 3) 0) :=
  ⟨readUInt16BE_eq bytes off hb, readUInt32BE_eq bytes off hb⟩

/-- Witness for C9: the 16-bit reader on `[0x12, 0x34]` gives 0x1234 and the
32-bit reader on `[0xFF, 0, 0, 0]` gives the signed value -16777216. -/
theorem c9_big_endian_reads_witness :
    readUInt16BE [0x12, 0x34] 0 = 0x1234 ∧
    readUInt32BE [0xFF, 0x00, 0x00, 0x00] 0 = -16777216 := by
  have h1 := c9_big_endian_reads [0x12, 0x34] 0 (by decide)
  have h2 := c9_big_endian_reads [0xFF, 0x00, 0x00, 0x00] 0 (by decide)
  exact ⟨h1.1.trans (by decide), h2.2.trans (by decide)⟩

/-! ## Claim theorems: acknowledgement builder -/

/-- Claim C4 counterexample: the login acknowledgement for the captured
login frame (serial bytes 0x00 0x08) is 10 bytes long, not 11 as claimed —
the enumerated layout `7878 05 01 <serial:2> <crc:2> 0d0a` itself only
contains 10 bytes. -/
theorem c4_ack_length_counterexample :
    (loginAck capturedFrame).length = 10 ∧ (loginAck capturedFrame).length ≠ 11 := by
  constructor <;> decide

/-- Claim C4 (amended): the acknowledgement built for the captured login
frame with serial bytes 0x00 0x08 is `7878 05 01 00 08` followed by
`crc16X25 [0x05,0x01,0x00,0x08]` (two bytes, high byte first, concretely
0x44 0x1D) and the end marker `0d0a`; the full acknowledgement is exactly
10 bytes and ends with 0x0d 0x0a. -/
theorem c4_login_ack :
    loginAck capturedFrame =
      [0x78, 0x78, 0x05, 0x01, 0x00, 0x08] ++ crc16X25 [0x05, 0x01, 0x00, 0x08] ++
        [0x0d, 0x0a] ∧
    crc16X25 [0x05, 0x01, 0x00, 0x08] = [0x44, 0x1D] ∧
    (loginAck capturedFrame).length = 10 ∧
    (loginAck capturedFrame).drop 8 = [0x0d, 0x0a] := by
  refine ⟨by decide, by decide, by decide, by decide⟩

/-! ## Claim theorems: decoder error handling -/

/-- Claim C7 counterexample: a frame with unknown message type 0x16 decodes
to a record that the code marks with an `error` property
(`error: 'Unknown message type: 0x16'`), contradicting the claim that the
result is not an error. -/
theorem c7_unknown_type_counterexample :
    decode [0x78, 0x78, 0x05, 0x16, 0x00, 0x00, 0x0d, 0x0a] =
      .unknownType 0x16 ∧
    DecodeResult.hasError (decode [0x78, 0x78, 0x05, 0x16, 0x00, 0x00, 0x0d, 0x0a]) =
      true := by
  constructor <;> decide

/-- Claim C7 (amended): for every frame of at least 4 bytes with a valid
start marker whose message-type byte is neither 0x01 (location report) nor
0x04 (heartbeat/status), `decode` returns a record carrying the raw type
byte, but flagged with an `error` message naming it; `decode` never throws
(it is a total function, all exceptions being caught internally). -/
theorem c7_unknown_type (bytes : List Nat)
    (h0 : jsByte bytes 0 = 0x78) (h1 : jsByte bytes 1 = 0x78)
    (hlen : 4 ≤ bytes.length)
    (ht1 : jsByte bytes 3 ≠ 0x01) (ht4 : jsByte bytes 3 ≠ 0x04) :
    decode bytes = .unknownType (jsByte bytes 3) ∧
    (decode bytes).hasError = true := by
  unfold decode
  rw [if_pos ⟨h0, h1⟩, if_neg (by omega), if_neg ht1, if_neg ht4]
  exact ⟨rfl, rfl⟩

/-- Witness for C7: the 0x16-type frame decodes to the unknown-type error
record. -/
theorem c7_unknown_type_witness :
    decode [0x78, 0x78, 0x0d, 0x16, 0x00, 0x00, 0x0d, 0x0a] = .unknownType 0x16 ∧
    DecodeResult.hasError (decode [0x78, 0x78, 0x0d, 0x16, 0x00, 0x00, 0x0d, 0x0a]) =
      true := by
  have h := c7_unknown_type [0x78, 0x78, 0x0d, 0x16, 0x00, 0x00, 0x0d, 0x0a]
    (by decide) (by decide) (by decide) (by decide) (by decide)
  exact ⟨h.1.trans (by decide), h.2⟩

/-- Claim C8: `verifyChecksum` reads `bytes[length - 2]` — the first
end-marker byte, always 0x0d on a well-formed frame — as the received
checksum, not the byte immediately before the two end-marker bytes: on the
frame `7878 05 16 01 AA 0d 0a` the byte before the end marker is 0xAA, but
the function reports `received = 0x0d` and XORs `bytes[3..4]` to 0x17.  It
returns the report record instead of throwing, and the mismatch only makes
`valid` false. -/
theorem c8_checksum_position_bug :
    verifyChecksum [0x78, 0x78, 0x05, 0x16, 0x01, 0xAA, 0x0d, 0x0a] =
      { received := some 0x0d, calculated := 0x17, valid := false } ∧
    [0x78, 0x78, 0x05, 0x16, 0x01, 0xAA, 0x0d, 0x0a].getD (8 - 3) 0 = 0xAA ∧
    (0x0d : Nat) ≠ 0xAA := by
  refine ⟨by decide, by decide, by decide⟩

/-! ## Claim theorems: CRC-16/X-25 -/

theorem crcRound_eq_spec (c : Nat) : crcRound c = crcSpecRound c := by
  unfold crcRound crcSpecRound
  simp only [Nat.and_one_is_mod, Nat.shiftRight_eq_div_pow, pow_one]

theorem crcRound_funext : crcRound = crcSpecRound := funext crcRound_eq_spec

theorem crcRound_lt {c : Nat} (h : c < 2 ^ 16) : crcRound c < 2 ^ 16 := by
  unfold crcRound
  have hd : c >>> 1 < 2 ^ 16 := by
    rw [Nat.shiftRight_eq_div_pow, pow_one]
    exact lt_of_le_of_lt (Nat.div_le_self _ _) h
  split
  · exact Nat.xor_lt_two_pow hd (by norm_num)
  · exact hd

theorem crcRound_iter_lt (n : Nat) {c : Nat} (h : c < 2 ^ 16) :
    crcRound^[n] c < 2 ^ 16 := by
  induction n generalizing c with
  | zero => simpa using h
  | succ n ih =>
    rw [Function.iterate_succ_apply]
    exact ih (crcRound_lt h)

theorem crcFold_lt (bs : List Nat) (hb : ∀ b ∈ bs, b < 256) (init : Nat)
    (hi : init < 2 ^ 16) :
    bs.foldl (fun crc b => crcRound^[8] (crc ^^^ b)) init < 2 ^ 16 := by
  induction bs generalizing init with
  | nil => simpa using hi
  | cons b bs ih =>
    simp only [List.foldl_cons]
    exact ih (fun x hx => hb x (List.mem_cons_of_mem _ hx)) _
      (crcRound_iter_lt 8 (Nat.xor_lt_two_pow hi
        (lt_trans (hb b (List.mem_cons_self _ _)) (by norm_num))))

theorem jsNotMask_eq {reg : Nat} (h : reg < 2 ^ 16) :
    (2 ^ 32 - 1 - reg) &&& 0xffff = 0xffff - reg := by
  have hm := Nat.and_pow_two_sub_one_eq_mod (2 ^ 32 - 1 - reg) 16
  norm_num at hm h ⊢
  rw [hm]
  omega

theorem crc_high_byte {c : Nat} (h : c < 2 ^ 16) : (c >>> 8) &&& 0xff = c / 256 := by
  rw [Nat.shiftRight_eq_div_pow]
  have hlt : c / 2 ^ 8 < 2 ^ 8 := by
    norm_num at h ⊢
    omega
  rw [show (0xff : Nat) = 2 ^ 8 - 1 by norm_num,
    Nat.and_pow_two_sub_one_of_lt_two_pow hlt]
  norm_num

theorem crc_low_byte (c : Nat) : c &&& 0xff = c % 256 := by
  rw [show (0xff : Nat) = 2 ^ 8 - 1 by norm_num, Nat.and_pow_two_sub_one_eq_mod]

/-- Claim C5: `crc16X25` computes exactly the CRC-16/X-25 algorithm the spec
describes (register initialised to 0xFFFF, eight per-bit steps per byte
XORing in 0x8408 when the shifted-out bit is 1, final one's-complement of
the 16-bit register, two result bytes high byte first), and its output
always has exactly two bytes.  Determinism is inherent: the embedding is a
pure function of the input bytes. -/
theorem c5_crc16X25_spec (bs : List Nat) (hb : ∀ b ∈ bs, b < 256) :
    crc16X25 bs = crc16X25Spec bs ∧ (crc16X25 bs).length = 2 := by
  constructor
  · simp only [crc16X25, crc16X25Spec]
    rw [crcRound_funext]
    set reg := bs.foldl (fun crc b => crcSpecRound^[8] (crc ^^^ b)) 0xffff with hreg
    have hlt : reg < 2 ^ 16 := by
      rw [hreg, ← crcRound_funext]
      exact crcFold_lt bs hb 0xffff (by norm_num)
    have hc : 0xffff - reg < 2 ^ 16 := by
      norm_num
      omega
    rw [jsNotMask_eq hlt, crc_high_byte hc, crc_low_byte]
  · simp [crc16X25]

/-- Witness for C5: on the ack body `[0x05, 0x01, 0x00, 0x08]` the code CRC
agrees with the spec-worded algorithm and equals 0x441D. -/
theorem c5_crc16X25_spec_witness :
    crc16X25 [0x05, 0x01, 0x00, 0x08] = crc16X25Spec [0x05, 0x01, 0x00, 0x08] ∧
    crc16X25 [0x05, 0x01, 0x00, 0x08] = [0x44, 0x1D] := by
  have h := c5_crc16X25_spec [0x05, 0x01, 0x00, 0x08] (by decide)
  exact ⟨h.1, by decide⟩

/-! ## Claim theorems: location decoding -/

/-- Claim C6: on every location-report frame shorter than 28 bytes, `decode`
returns the GPS_NOT_READY record carrying the device identifier and the
actual frame length; it has no location payload and no `error` property. -/
theorem c6_gps_not_ready (bytes : List Nat)
    (h0 : jsByte bytes 0 = 0x78) (h1 : jsByte bytes 1 = 0x78)
    (hlen : 4 ≤ bytes.length) (ht : jsByte bytes 3 = 0x01)
    (hshort : bytes.length < 28) :
    decode bytes =
      .gpsNotReady (bytesToString ((bytes.drop 4).take 8))
        (if 14 ≤ bytes.length then some (readUInt16BE bytes 12) else none)
        bytes.length ∧
    (decode bytes).hasError = false ∧
    (decode bytes).hasLocation = false ∧
    (decode bytes).imeiOf = some (bytesToString ((bytes.drop 4).take 8)) := by
  have hd : decode bytes = decodeLocationReport bytes := by
    unfold decode
    rw [if_pos ⟨h0, h1⟩, if_neg (by omega), if_pos ht]
  have hr : decodeLocationReport bytes =
      .gpsNotReady (bytesToString ((bytes.drop 4).take 8))
        (if 14 ≤ bytes.length then some (readUInt16BE bytes 12) else none)
        bytes.length := by
    simp only [decodeLocationReport, if_pos hshort]
  rw [hd, hr]
  exact ⟨rfl, rfl, rfl, rfl⟩

/-- Witness for C6: the captured 18-byte location-type frame decodes to the
GPS_NOT_READY record with the decoded identifier and length 18. -/
theorem c6_gps_not_ready_witness :
    decode capturedFrame = .gpsNotReady "3075179815222715" (some 8) 18 ∧
    (decode capturedFrame).hasError = false ∧
    (decode capturedFrame).hasLocation = false := by
  have h := c6_gps_not_ready capturedFrame (by decide) (by decide) (by decide)
    (by decide) (by decide)
  exact ⟨h.1.trans (by decide), h.2.1, h.2.2.1⟩

/-- Claim C3 counterexample: a location-report frame of exactly 28 bytes
produces no coordinate conversion — `readDateTime` reads `undefined` bytes,
the invalid `Date` makes `toISOString()` throw, and the decoder returns an
error record with no location payload. -/
theorem c3_short_frame_counterexample :
    ([0x78, 0x78, 0x17, 0x01, 0x03, 0x57, 0x71, 0x89, 0x51, 0x22, 0x72, 0x51,
      0x00, 0x08, 0x00, 0x60, 0x3A, 0x0C, 0x07, 0x63, 0xDA, 0x40, 0x01, 0xF4,
      0x00, 0x12, 0x00, 0xB4] : List Nat).length = 28 ∧
    DecodeResult.hasLocation (decode
      [0x78, 0x78, 0x17, 0x01, 0x03, 0x57, 0x71, 0x89, 0x51, 0x22, 0x72, 0x51,
       0x00, 0x08, 0x00, 0x60, 0x3A, 0x0C, 0x07, 0x63, 0xDA, 0x40, 0x01, 0xF4,
       0x00, 0x12, 0x00, 0xB4]) = false ∧
    DecodeResult.hasError (decode
      [0x78, 0x78, 0x17, 0x01, 0x03, 0x57, 0x71, 0x89, 0x51, 0x22, 0x72, 0x51,
       0x00, 0x08, 0x00, 0x60, 0x3A, 0x0C, 0x07, 0x63, 0xDA, 0x40, 0x01, 0xF4,
       0x00, 0x12, 0x00, 0xB4]) = true := by
  refine ⟨by decide, by decide, by decide⟩

/-- Claim C3 (amended): for every location-report frame of length at least
35 (so that the status byte at offset 34 exists), decoding converts each
raw coordinate — read as a signed 32-bit big-endian value — to decimal
degrees `raw / 1800000`, negated when the corresponding hemisphere bit of
the status byte is set (bit 0 for latitude, bit 1 for longitude; clear
means positive/N or E), producing both the rounded decimal value and the
hemisphere letter; in particular raw latitude 6306316 with the bit clear
yields 3.503509 with direction N, and with the bit set yields -3.503509
with direction S. -/
theorem c3_coordinate_conversion :
    (∀ bytes : List Nat, (∀ b ∈ bytes, b < 256) →
      jsByte bytes 0 = 0x78 → jsByte bytes 1 = 0x78 → jsByte bytes 3 = 0x01 →
      35 ≤ bytes.length →
      ∃ loc : LocationData,
        decode bytes = .location (bytesToString ((bytes.drop 4).take 8))
          (some (readUInt16BE bytes 12)) loc ∧
        loc.latitude.raw = readUInt32BE bytes 14 ∧
        loc.latitude.decimal =
          roundTo6 ((if jsByte bytes 34 &&& 1 = 0 then 1 else -1) *
            ((readUInt32BE bytes 14 : ℚ) / 1800000)) ∧
        loc.latitude.direction = (if jsByte bytes 34 &&& 1 = 0 then 'N' else 'S') ∧
        loc.longitude.raw = readUInt32BE bytes 18 ∧
        loc.longitude.decimal =
          roundTo6 ((if jsByte bytes 34 &&& 2 = 0 then 1 else -1) *
            ((readUInt32BE bytes 18 : ℚ) / 1800000)) ∧
        loc.longitude.direction = (if jsByte bytes 34 &&& 2 = 0 then 'E' else 'W')) ∧
    (∃ loc : LocationData,
      decode frame38N = .location (bytesToString ((frame38N.drop 4).take 8))
        (some (readUInt16BE frame38N 12)) loc ∧
      loc.latitude.decimal = 3503509 / 1000000 ∧ loc.latitude.direction = 'N' ∧
      loc.latitude.raw = 6306316) ∧
    (∃ loc : LocationData,
      decode frame38S = .location (bytesToString ((frame38S.drop 4).take 8))
        (some (readUInt16BE frame38S 12)) loc ∧
      loc.latitude.decimal = -(3503509 / 1000000 : ℚ) ∧ loc.latitude.direction = 'S' ∧
      loc.latitude.raw = 6306316) := by
  have huniv : ∀ bytes : List Nat, (∀ b ∈ bytes, b < 256) →
      jsByte bytes 0 = 0x78 → jsByte bytes 1 = 0x78 → jsByte bytes 3 = 0x01 →
      35 ≤ bytes.length →
      ∃ loc : LocationData,
        decode bytes = .location (bytesToString ((bytes.drop 4).take 8))
          (some (readUInt16BE bytes 12)) loc ∧
        loc.latitude.raw = readUInt32BE bytes 14 ∧
        loc.latitude.decimal =
          roundTo6 ((if jsByte bytes 34 &&& 1 = 0 then 1 else -1) *
            ((readUInt32BE bytes 14 : ℚ) / 1800000)) ∧
        loc.latitude.direction = (if jsByte bytes 34 &&& 1 = 0 then 'N' else 'S') ∧
        loc.longitude.raw = readUInt32BE bytes 18 ∧
        loc.longitude.decimal =
          roundTo6 ((if jsByte bytes 34 &&& 2 = 0 then 1 else -1) *
            ((readUInt32BE bytes 18 : ℚ) / 1800000)) ∧
        loc.longitude.direction = (if jsByte bytes 34 &&& 2 = 0 then 'E' else 'W') := by
    intro bytes hb h0 h1 ht hlen
    have hd : decode bytes = decodeLocationReport bytes := by
      unfold decode
      rw [if_pos ⟨h0, h1⟩, if_neg (by omega), if_pos ht]
    have h14 : 14 ≤ bytes.length := by omega
    have h28 : ¬ bytes.length < 28 := by omega
    have h34 : ¬ bytes.length < 34 := by omega
    have hr : decodeLocationReport bytes = DecodeResult.location
        (bytesToString ((bytes.drop 4).take 8)) (some (readUInt16BE bytes 12))
        { latitude := formatCoordinate (readUInt32BE bytes 14)
            (decide (jsByte bytes 34 &&& 1 = 0)) true
          longitude := formatCoordinate (readUInt32BE bytes 18)
            (decide (jsByte bytes 34 &&& 2 = 0)) false
          altitude := readUInt16BE bytes 22
          speed := (readUInt16BE bytes 24 : ℚ) / 10
          course := readUInt16BE bytes 26
          dateTime := { year := 2000 + jsByte bytes 28, month := jsByte bytes 29
                        day := jsByte bytes 30, hour := jsByte bytes 31
                        minute := jsByte bytes 32, second := jsByte bytes 33 }
          gpsStatus := if jsByte bytes 34 &&& 4 = 0 then "FIXED" else "UNFIXED"
          satellites := (jsByte bytes 34 >>> 4) &&& 0x0F } := by
      simp only [decodeLocationReport, if_pos h14, if_neg h28, if_neg h34]
    rw [hd, hr]
    refine ⟨_, rfl, rfl, ?_, ?_, rfl, ?_, ?_⟩
    · by_cases hN : jsByte bytes 34 &&& 1 = 0 <;>
        simp [formatCoordinate, hN]
    · by_cases hN : jsByte bytes 34 &&& 1 = 0 <;>
        simp [formatCoordinate, hN]
    · by_cases hE : jsByte bytes 34 &&& 2 = 0 <;>
        simp [formatCoordinate, hE]
    · by_cases hE : jsByte bytes 34 &&& 2 = 0 <;>
        simp [formatCoordinate, hE]
  refine ⟨huniv, ?_, ?_⟩
  · obtain ⟨loc, hloc, hraw, hdec, hdir, _, _, _⟩ :=
      huniv frame38N (by decide) (by decide) (by decide) (by decide) (by decide)
    refine ⟨loc, hloc, ?_, ?_, ?_⟩
    · rw [hdec, if_pos (show jsByte frame38N 34 &&& 1 = 0 by decide),
        show readUInt32BE frame38N 14 = 6306316 from by decide]
      unfold roundTo6
      norm_num
    · rw [hdir, if_pos (show jsByte frame38N 34 &&& 1 = 0 by decide)]
    · rw [hraw]
      decide
  · obtain ⟨loc, hloc, hraw, hdec, hdir, _, _, _⟩ :=
      huniv frame38S (by decide) (by decide) (by decide) (by decide) (by decide)
    refine ⟨loc, hloc, ?_, ?_, ?_⟩
    · rw [hdec, if_neg (show ¬ jsByte frame38S 34 &&& 1 = 0 by decide),
        show readUInt32BE frame38S 14 = 6306316 from by decide]
      unfold roundTo6
      norm_num
    · rw [hdir, if_neg (show ¬ jsByte frame38S 34 &&& 1 = 0 by decide)]
    · rw [hraw]
      decide

/-- Witness for C3: the 38-byte frame `frame38N` decodes to a location
record whose latitude has raw value 6306316 and direction N. -/
theorem c3_coordinate_conversion_witness :
    ∃ loc : LocationData,
      decode frame38N = .location (bytesToString ((frame38N.drop 4).take 8))
        (some (readUInt16BE frame38N 12)) loc ∧
      loc.latitude.direction = 'N' ∧ loc.latitude.raw = 6306316 := by
  obtain ⟨loc, hloc, hraw, _, hdir, _⟩ :=
    c3_coordinate_conversion.1 frame38N (by decide) (by decide) (by decide)
      (by decide) (by decide)
  exact ⟨loc, hloc, hdir.trans (by decide), hraw.trans (by decide)⟩

/-! ## Helper lemmas about the hex encoding and pattern search -/

theorem hexOfBytes_length (bs : List Nat) : (hexOfBytes bs).length = 2 * bs.length := by
  induction bs with
  | nil => rfl
  | cons b bs ih =>
    simp only [hexOfBytes, List.length_cons, ih]
    omega

theorem hexOfBytes_append (xs ys : List Nat) :
    hexOfBytes (xs ++ ys) = hexOfBytes xs ++ hexOfBytes ys := by
  induction xs with
  | nil => rfl
  | cons b bs ih => simp [hexOfBytes, ih]

theorem hexOfBytes_flatten (ls : List (List Nat)) :
    hexOfBytes ls.flatten = (ls.map hexOfBytes).flatten := by
  induction ls with
  | nil => rfl
  | cons l ls ih => simp [List.flatten_cons, hexOfBytes_append, ih]

theorem drop_isPre_mono {p q : List Nat} (h : p <+: q) (i : Nat) :
    p.drop i <+: q.drop i := by
  obtain ⟨t, rfl⟩ := h
  rcases le_or_lt i p.length with hi | hi
  · rw [List.drop_append_of_le_length hi]
    exact List.prefix_append _ _
  · rw [List.drop_eq_nil_of_le (by omega)]
    exact List.nil_prefix

theorem pat_drop_mono {pat p q : List Nat} (hpq : p <+: q) {i : Nat}
    (h : pat <+: p.drop i) : pat <+: q.drop i :=
  h.trans (drop_isPre_mono hpq i)

theorem pat_in_left {pat x t : List Nat} {j : Nat}
    (h : pat <+: (x ++ t).drop j) (hj : j + pat.length ≤ x.length) :
    pat <+: x.drop j := by
  rw [List.drop_append_of_le_length (by omega)] at h
  have heq := (List.prefix_iff_eq_take).mp h
  rw [List.take_append_of_le_length (by rw [List.length_drop]; omega)] at heq
  rw [List.prefix_iff_eq_take]
  exact heq

theorem findPat_some_isPrefixOf {pat l : List Nat} {e : Nat}
    (h : findPat pat l = some e) : pat.isPrefixOf (l.drop e) = true := by
  induction l generalizing e with
  | nil =>
    unfold findPat at h
    split at h
    · next hp =>
      cases h
      simpa using hp
    · cases h
  | cons a rest ih =>
    unfold findPat at h
    split at h
    · next hp =>
      cases h
      simpa using hp
    · next hp =>
      cases he : findPat pat rest with
      | none => rw [he] at h; simp at h
      | some e' =>
        rw [he] at h
        simp only [Option.map_some'] at h
        cases h
        simpa using ih he

theorem findPat_some_min {pat l : List Nat} {e : Nat}
    (h : findPat pat l = some e) :
    ∀ j, j < e → pat.isPrefixOf (l.drop j) = false := by
  induction l generalizing e with
  | nil =>
    unfold findPat at h
    split at h
    · cases h
      intro j hj
      omega
    · cases h
  | cons a rest ih =>
    unfold findPat at h
    split at h
    · cases h
      intro j hj
      omega
    · next hp =>
      cases he : findPat pat rest with
      | none => rw [he] at h; simp at h
      | some e' =>
        rw [he] at h
        simp only [Option.map_some'] at h
        cases h
        intro j hj
        cases j with
        | zero =>
          simp only [List.drop_zero]
          exact Bool.eq_false_iff.mpr hp
        | succ j' =>
          simpa using ih he j' (by omega)

theorem findPat_isSome {pat l : List Nat} {i : Nat}
    (h : pat.isPrefixOf (l.drop i) = true) : (findPat pat l).isSome = true := by
  induction l generalizing i with
  | nil =>
    rw [List.drop_nil] at h
    unfold findPat
    rw [if_pos h]
    rfl
  | cons a rest ih =>
    unfold findPat
    split
    · rfl
    · next hp =>
      cases i with
      | zero =>
        rw [List.drop_zero] at h
        exact absurd h hp
      | succ i' =>
        rw [List.drop_succ_cons] at h
        have := ih h
        cases hfp : findPat pat rest with
        | none => rw [hfp] at this; simp at this
        | some e => simp [hfp]

theorem findPat_eq_some_of {pat l : List Nat} {e : Nat}
    (hm : pat.isPrefixOf (l.drop e) = true)
    (hmin : ∀ j, j < e → pat.isPrefixOf (l.drop j) = false) :
    findPat pat l = some e := by
  have hs := findPat_isSome hm
  cases hfp : findPat pat l with
  | none => rw [hfp] at hs; simp at hs
  | some e' =>
    have h1 := findPat_some_isPrefixOf hfp
    have h2 := findPat_some_min hfp
    congr 1
    rcases lt_trichotomy e' e with hlt | heq | hgt
    · rw [hmin e' hlt] at h1
      exact absurd h1 (by simp)
    · exact heq
    · rw [h2 e hgt] at hm
      exact absurd hm (by simp)

theorem findPat_bound {pat l : List Nat} {e : Nat} (hne : pat ≠ [])
    (h : findPat pat l = some e) : e + pat.length ≤ l.length := by
  have h1 := findPat_some_isPrefixOf h
  rw [ List.isPrefixOf_iff_prefix] at h1
  have h2 := h1.length_le
  rw [List.length_drop] at h2
  have hpos : 0 < pat.length := List.length_pos.mpr hne
  omega

/-! ## The frame-extraction loop: fuel irrelevance and step lemmas -/

theorem processBufferFuel_congr :
    ∀ (f1 f2 : Nat) (b : List Nat), b.length ≤ f1 → b.length ≤ f2 →
      processBufferFuel f1 b = processBufferFuel f2 b := by
  intro f1
  induction f1 with
  | zero =>
    intro f2 b h1 h2
    have hb : b = [] := List.length_eq_zero.mp (by omega)
    subst hb
    cases f2 with
    | zero => rfl
    | succ f2 => simp [processBufferFuel]
  | succ f1 ih =>
    intro f2 b h1 h2
    cases f2 with
    | zero =>
      have hb : b = [] := List.length_eq_zero.mp (by omega)
      subst hb
      simp [processBufferFuel]
    | succ f2 =>
      show processBufferFuel (f1 + 1) b = processBufferFuel (f2 + 1) b
      simp only [processBufferFuel]
      by_cases hlen : b.length < 4
      · simp [hlen]
      · simp only [if_neg hlen]
        cases hs : findPat [7, 8, 7, 8] b with
        | none => rfl
        | some s =>
          simp only [hs]
          cases he : findPat [0, 13, 0, 10] ((b.drop s).drop (s + 4)) with
          | none => simp [he]
          | some e0 =>
            simp only [he]
            have hsb := findPat_bound (by decide) hs
            have heb := findPat_bound (by decide) he
            simp only [List.length_drop] at hsb heb
            have hrest : ((b.drop s).drop (e0 + s + 4 + 4)).length ≤ f1 ∧
                ((b.drop s).drop (e0 + s + 4 + 4)).length ≤ f2 := by
              constructor <;> (simp only [List.length_drop]; omega)
            rw [ih f2 _ hrest.1 hrest.2]

theorem processBuffer_step (b : List Nat) :
    processBuffer b = processBufferFuel (b.length + 1) b :=
  processBufferFuel_congr b.length (b.length + 1) b le_rfl (by omega)

theorem processBuffer_small {b : List Nat} (h : b.length < 4) :
    processBuffer b = ([], b) := by
  rw [processBuffer_step]
  simp only [processBufferFuel, if_pos h]

theorem processBuffer_noStart {b : List Nat} (hlen : ¬ b.length < 4)
    (hs : findPat [7, 8, 7, 8] b = none) : processBuffer b = ([], []) := by
  rw [processBuffer_step]
  simp only [processBufferFuel, if_neg hlen, hs]

theorem processBuffer_noEnd {b : List Nat} (hlen : ¬ b.length < 4) {s : Nat}
    (hs : findPat [7, 8, 7, 8] b = some s)
    (he : findPat [0, 13, 0, 10] ((b.drop s).drop (s + 4)) = none) :
    processBuffer b = ([], b.drop s) := by
  rw [processBuffer_step]
  simp only [processBufferFuel, if_neg hlen, hs, he]

theorem processBuffer_emit {b : List Nat} (hlen : ¬ b.length < 4) {s e0 : Nat}
    (hs : findPat [7, 8, 7, 8] b = some s)
    (he : findPat [0, 13, 0, 10] ((b.drop s).drop (s + 4)) = some e0) :
    processBuffer b =
      ((b.drop s).take (e0 + s + 4 + 4) ::
          (processBuffer ((b.drop s).drop (e0 + s + 4 + 4))).1,
        (processBuffer ((b.drop s).drop (e0 + s + 4 + 4))).2) := by
  rw [processBuffer_step]
  simp only [processBufferFuel, if_neg hlen, hs, he]
  have hc : processBufferFuel b.length ((b.drop s).drop (e0 + s + 4 + 4)) =
      processBuffer ((b.drop s).drop (e0 + s + 4 + 4)) := by
    unfold processBuffer
    refine processBufferFuel_congr _ _ _ ?_ le_rfl
    simp only [List.length_drop]
    omega
  rw [hc]

/-! ## Frame reassembly: structure of valid frames and the main lemmas -/

theorem validFrame_start {f : List Nat} (h : validFrame f) :
    [7, 8, 7, 8] <+: hexOfBytes f := by
  obtain ⟨hlen, hb, hstart, hlenbyte, hend⟩ := h
  have hf : f = 0x78 :: 0x78 :: f.drop 2 := by
    conv_lhs => rw [← List.take_append_drop 2 f]
    rw [hstart]
    rfl
  rw [show hexOfBytes f = hexOfBytes (0x78 :: 0x78 :: f.drop 2) from by rw [← hf]]
  exact ⟨hexOfBytes (f.drop 2), rfl⟩

theorem validFrame_end {f : List Nat} (h : validFrame f) :
    (hexOfBytes f).drop (2 * f.length - 4) = [0, 13, 0, 10] := by
  obtain ⟨hlen, hb, hstart, hlenbyte, hend⟩ := h
  have hf : f = f.take (f.length - 2) ++ [0x0d, 0x0a] := by
    conv_lhs => rw [← List.take_append_drop (f.length - 2) f]
    rw [hend]
  have hfh : hexOfBytes f = hexOfBytes (f.take (f.length - 2)) ++ hexOfBytes [0x0d, 0x0a] := by
    rw [← hexOfBytes_append, ← hf]
  rw [hfh]
  have hl : (hexOfBytes (f.take (f.length - 2))).length = 2 * f.length - 4 := by
    rw [hexOfBytes_length, List.length_take]
    omega
  rw [List.drop_left' hl]
  rfl

theorem findPat_start_marker {b : List Nat} (hpre : [7, 8, 7, 8] <+: b) :
    findPat [7, 8, 7, 8] b = some 0 := by
  cases b with
  | nil =>
    have := hpre.length_le
    simp at this
  | cons a rest =>
    unfold findPat
    rw [if_pos (by rw [ List.isPrefixOf_iff_prefix]; exact hpre)]

/-- End-marker search on a complete valid frame followed by an arbitrary
tail: the first occurrence of the digit pattern `0d0a` at index ≥ 4 is the
frame's own end marker, regardless of the tail. -/
theorem findPat_end_complete {f t : List Nat} (hv : validFrame f)
    (ho : onlyFinalEndMarker f) :
    findPat [0, 13, 0, 10] ((hexOfBytes f ++ t).drop 4) =
      some (2 * f.length - 8) := by
  have hlen8 : 8 ≤ f.length := hv.1
  have hhex : (hexOfBytes f).length = 2 * f.length := hexOfBytes_length f
  apply findPat_eq_some_of
  · rw [List.drop_drop]
    rw [show 4 + (2 * f.length - 8) = 2 * f.length - 4 by omega]
    rw [List.drop_append_of_le_length (by omega)]
    rw [validFrame_end hv]
    rw [ List.isPrefixOf_iff_prefix]
    exact List.prefix_append _ _
  · intro j hj
    rw [List.drop_drop]
    by_contra hc
    have hm : [0, 13, 0, 10].isPrefixOf ((hexOfBytes f ++ t).drop (4 + j)) = true := by
      cases hb : [0, 13, 0, 10].isPrefixOf ((hexOfBytes f ++ t).drop (4 + j)) with
      | false => exact absurd hb hc
      | true => rfl
    rw [ List.isPrefixOf_iff_prefix] at hm
    have hin : [0, 13, 0, 10] <+: (hexOfBytes f).drop (4 + j) :=
      pat_in_left hm (by
        simp only [hhex, List.length_cons, List.length_nil]
        omega)
    have := ho (4 + j) (by omega) (by rw [ List.isPrefixOf_iff_prefix]; exact hin)
    omega

/-- Extraction of one complete valid frame at the head of the buffer: the
frame's hex digits are emitted and processing continues on the rest of the
buffer, for every tail. -/
theorem processBuffer_frame_cons {f t : List Nat} (hv : validFrame f)
    (ho : onlyFinalEndMarker f) :
    processBuffer (hexOfBytes f ++ t) =
      (hexOfBytes f :: (processBuffer t).1, (processBuffer t).2) := by
  have hlen8 : 8 ≤ f.length := hv.1
  have hhex : (hexOfBytes f).length = 2 * f.length := hexOfBytes_length f
  have hlen : ¬ (hexOfBytes f ++ t).length < 4 := by
    simp only [List.length_append, hhex]
    omega
  have hs : findPat [7, 8, 7, 8] (hexOfBytes f ++ t) = some 0 :=
    findPat_start_marker ((validFrame_start hv).trans (List.prefix_append _ _))
  have he0 : findPat [0, 13, 0, 10]
      (((hexOfBytes f ++ t).drop 0).drop (0 + 4)) = some (2 * f.length - 8) := by
    rw [List.drop_zero]
    rw [show 0 + 4 = 4 by rfl]
    exact findPat_end_complete hv ho
  have hemit := processBuffer_emit hlen hs he0
  rw [hemit]
  have hfl : 2 * f.length - 8 + 0 + 4 + 4 = (hexOfBytes f).length := by
    rw [hhex]
    omega
  rw [List.drop_zero, hfl, List.take_left, List.drop_left]

/-- A proper prefix of a valid frame's hex digits yields no frame and leaves
the buffer untouched. -/
theorem processBuffer_incomplete {f p : List Nat} (hv : validFrame f)
    (ho : onlyFinalEndMarker f) (hp : p <+: hexOfBytes f)
    (hlt : p.length < 2 * f.length) :
    processBuffer p = ([], p) := by
  by_cases hsmall : p.length < 4
  · exact processBuffer_small hsmall
  · have hs : findPat [7, 8, 7, 8] p = some 0 := by
      apply findPat_start_marker
      obtain ⟨u, hu⟩ := hp
      have h4 : [7, 8, 7, 8] <+: (p ++ u).drop 0 := by
        rw [List.drop_zero, hu]
        exact validFrame_start hv
      have := pat_in_left h4 (by simp; omega)
      simpa using this
    have he : findPat [0, 13, 0, 10] ((p.drop 0).drop (0 + 4)) = none := by
      rw [List.drop_zero, show 0 + 4 = 4 by rfl]
      cases hfp : findPat [0, 13, 0, 10] (p.drop 4) with
      | none => rfl
      | some e0 =>
        exfalso
        have hm := findPat_some_isPrefixOf hfp
        have hbd := findPat_bound (by decide) hfp
        rw [List.drop_drop] at hm
        rw [ List.isPrefixOf_iff_prefix] at hm
        have hmf : [0, 13, 0, 10] <+: (hexOfBytes f).drop (4 + e0) :=
          pat_drop_mono hp hm
        simp only [List.length_drop, List.length_cons, List.length_nil] at hbd
        have hi : 4 + e0 < 2 * f.length := by omega
        have := ho (4 + e0) hi (by rw [ List.isPrefixOf_iff_prefix]; exact hmf)
        omega
    have := processBuffer_noEnd hsmall hs he
    simpa using this

/-- A buffer consisting of the hex digits of a sequence of valid frames is
split into exactly those frames, in order, leaving an empty buffer. -/
theorem processBuffer_frames (fs : List (List Nat))
    (h : ∀ f ∈ fs, validFrame f ∧ onlyFinalEndMarker f) :
    processBuffer (fs.map hexOfBytes).flatten = (fs.map hexOfBytes, []) := by
  induction fs with
  | nil =>
    simp only [List.map_nil, List.flatten_nil]
    exact processBuffer_small (by simp)
  | cons f fs ih =>
    simp only [List.map_cons, List.flatten_cons]
    rw [processBuffer_frame_cons (h f (List.mem_cons_self _ _)).1
      (h f (List.mem_cons_self _ _)).2]
    rw [ih (fun g hg => h g (List.mem_cons_of_mem _ hg))]

/-- Feeding a run of empty chunks changes nothing. -/
theorem feedAll_empties (cs : List (List Nat)) :
    ∀ acc : List (List Nat), cs.flatten = [] →
      cs.foldl feedStep (acc, []) = (acc, []) := by
  induction cs with
  | nil =>
    intro acc _
    rfl
  | cons c cs ih =>
    intro acc h
    simp only [List.flatten_cons, List.append_eq_nil] at h
    obtain ⟨hc, hcs⟩ := h
    subst hc
    simp only [List.foldl_cons]
    have hstep : feedStep (acc, []) [] = (acc, []) := by
      simp only [feedStep, feed, hexOfBytes, List.append_nil]
      rw [processBuffer_small (by simp)]
      simp
    rw [hstep]
    exact ih acc hcs

/-- The split-chunk invariant: starting from a buffer holding the hex digits
of a proper prefix `done` of a valid frame `f`, feeding the remaining chunks
of `f` emits exactly the frame `hexOfBytes f` and empties the buffer. -/
theorem feedAll_split {f : List Nat} (hv : validFrame f)
    (ho : onlyFinalEndMarker f) :
    ∀ (chunks : List (List Nat)) (done : List Nat) (acc : List (List Nat)),
      done ++ chunks.flatten = f → done.length < f.length →
      chunks.foldl feedStep (acc, hexOfBytes done) = (acc ++ [hexOfBytes f], []) := by
  intro chunks
  induction chunks with
  | nil =>
    intro done acc hsum hlt
    exfalso
    simp only [List.flatten_nil, List.append_nil] at hsum
    subst hsum
    omega
  | cons c cs ih =>
    intro done acc hsum hlt
    simp only [List.flatten_cons] at hsum
    have hpre : (done ++ c) <+: f :=
      ⟨cs.flatten, by rw [← hsum, List.append_assoc]⟩
    have hle : (done ++ c).length ≤ f.length := hpre.length_le
    simp only [List.foldl_cons]
    have hfeed : feed (hexOfBytes done) c = processBuffer (hexOfBytes (done ++ c)) := by
      unfold feed
      rw [hexOfBytes_append]
    rcases Nat.lt_or_ge (done ++ c).length f.length with hc | hc
    · have hpp : hexOfBytes (done ++ c) <+: hexOfBytes f := by
        obtain ⟨u, hu⟩ := hpre
        exact ⟨hexOfBytes u, by rw [← hexOfBytes_append, hu]⟩
      have hpart := processBuffer_incomplete hv ho hpp
        (by rw [hexOfBytes_length]; rw [← hexOfBytes_length f, hexOfBytes_length]; omega)
      have hstep : feedStep (acc, hexOfBytes done) c = (acc, hexOfBytes (done ++ c)) := by
        simp only [feedStep, hfeed, hpart, List.append_nil]
      rw [hstep]
      exact ih (done ++ c) acc (by rw [List.append_assoc, hsum]) hc
    · have heq : done ++ c = f := hpre.eq_of_length (by omega)
      have hcs : cs.flatten = [] := by
        have : (done ++ c) ++ cs.flatten = f ++ [] := by
          rw [List.append_assoc, hsum, List.append_nil]
        rw [heq] at this
        exact List.append_cancel_left this
      have hproc : processBuffer (hexOfBytes (done ++ c)) = ([hexOfBytes f], []) := by
        rw [heq]
        have := processBuffer_frame_cons (t := []) hv ho
        rw [List.append_nil, processBuffer_small (b := []) (by simp)] at this
        exact this
      have hstep : feedStep (acc, hexOfBytes done) c = (acc ++ [hexOfBytes f], []) := by
        simp only [feedStep, hfeed, hproc]
      rw [hstep]
      exact feedAll_empties cs _ hcs

/-! ## Claim theorems: frame reassembly -/

/-- Claim C2 counterexample: the valid frame `7878 05 16 0d 0a 00 cc 0d 0a`
(length byte 0x05 = length - 5, proper start and end markers, but with the
end-marker byte pair also inside its body) fed as a single chunk does not
yield one frame equal to the frame: the end-marker search stops at the
interior `0d0a`, emitting the truncated frame `7878 05 16 0d 0a` and
discarding the remainder. -/
theorem c2_chunk_counterexample :
    validFrame [0x78, 0x78, 0x05, 0x16, 0x0d, 0x0a, 0x00, 0xcc, 0x0d, 0x0a] ∧
    (feed [] [0x78, 0x78, 0x05, 0x16, 0x0d, 0x0a, 0x00, 0xcc, 0x0d, 0x0a]).1 ≠
      [hexOfBytes [0x78, 0x78, 0x05, 0x16, 0x0d, 0x0a, 0x00, 0xcc, 0x0d, 0x0a]] := by
  constructor <;> decide

/-- Claim C2 (amended): for every valid frame whose hex encoding contains
the end-marker digit pattern `0d0a` only at its final position, the
reassembler is chunk-boundary independent — feeding the frame in arbitrary
consecutive sub-chunks yields exactly one emitted frame, equal to the
frame's hex digits, leaving an empty buffer; and a single chunk holding any
sequence of such frames back-to-back yields exactly those frames in their
original order, leaving an empty buffer.  In particular no frame is emitted
partially and no byte twice. -/
theorem c2_reassembly_amended :
    (∀ (f : List Nat) (chunks : List (List Nat)),
      validFrame f → onlyFinalEndMarker f → chunks.flatten = f →
      feedAll chunks = ([hexOfBytes f], [])) ∧
    (∀ fs : List (List Nat), (∀ f ∈ fs, validFrame f ∧ onlyFinalEndMarker f) →
      feed [] fs.flatten = (fs.map hexOfBytes, [])) := by
  constructor
  · intro f chunks hv ho hsum
    unfold feedAll
    have h0 : ([] : List Nat).length < f.length := by
      have := hv.1
      simp only [List.length_nil]
      omega
    have := feedAll_split hv ho chunks [] []
      (by simpa using hsum) h0
    simpa [hexOfBytes] using this
  · intro fs h
    unfold feed
    rw [List.nil_append, hexOfBytes_flatten]
    exact processBuffer_frames fs h

/-- Witness for C2: the captured 18-byte frame fed in two chunks yields
exactly its hex digits once; the same frame twice in one chunk yields it
twice. -/
theorem c2_reassembly_amended_witness :
    feedAll [capturedFrame.take 7, capturedFrame.drop 7] =
      ([hexOfBytes capturedFrame], []) ∧
    feed [] ([capturedFrame, capturedFrame] : List (List Nat)).flatten =
      ([capturedFrame, capturedFrame].map hexOfBytes, []) := by
  constructor
  · exact c2_reassembly_amended.1 capturedFrame
      [capturedFrame.take 7, capturedFrame.drop 7] (by decide) (by decide) (by decide)
  · exact c2_reassembly_amended.2 [capturedFrame, capturedFrame] (by decide)

/-- Claim C10: the reassembler searches the hex-string encoding of the
buffered bytes, so there is a chunk containing no adjacent `0x78 0x78` byte
pair (hence no frame start per the wire format) for which `feed`
nevertheless emits a frame: the digit pattern `7878` matches at an odd hex
position spanning a byte boundary.  The emitted frame has an odd number of
hex digits, hence is not the hex encoding of any byte sequence — in
particular it does not begin with the two-byte start marker at the stream's
byte alignment. -/
theorem c10_odd_alignment_frame :
    ∃ chunk : List Nat, (∀ b ∈ chunk, b < 256) ∧
      (∀ i < chunk.length, ¬ ([0x78, 0x78].isPrefixOf (chunk.drop i) = true)) ∧
      (feed [] chunk).1.length = 1 ∧
      ∀ fr ∈ (feed [] chunk).1, ¬ ∃ bs : List Nat, hexOfBytes bs = fr := by
  refine ⟨[0x07, 0x87, 0x8A, 0xBC, 0xDE, 0x0d, 0x0a], by decide, by decide,
    by decide, ?_⟩
  intro fr hfr hex
  obtain ⟨bs, hbs⟩ := hex
  have h1 : (feed [] [0x07, 0x87, 0x8A, 0xBC, 0xDE, 0x0d, 0x0a]).1 =
      [[7, 8, 7, 8, 10, 11, 12, 13, 14, 0, 13, 0, 10]] := by decide
  rw [h1] at hfr
  have hfr' : fr = [7, 8, 7, 8, 10, 11, 12, 13, 14, 0, 13, 0, 10] := by
    simpa using hfr
  have hlen : fr.length = 13 := by rw [hfr']; rfl
  have heven : (hexOfBytes bs).length = 2 * bs.length := hexOfBytes_length bs
  rw [hbs, hlen] at heven
  omega

end GpsServer
